import Mathlib

/-!
Verification of the due-date scheduling engine of the `task_tracker`
integration (`custom_components/task_tracker/sensor.py`).

Modelling conventions (shallow embedding):

* A timestamp (`Ts`) is a rational number of seconds since a local epoch that
  falls on a Monday at 00:00, together with a Boolean `aware` flag modelling
  whether the Python `datetime` carries a `tzinfo`.  All values live in one
  local zone, so attaching the default zone to a naive value does not change
  its clock value.  Python datetimes have microsecond resolution; rationals
  are a superset of that, and the predictive-average computation is modelled
  with exact rational arithmetic (the source computes it via floats and
  rounds to whole microseconds when building the `timedelta`).
* The calendar is the linear day count `⌊q / 86400⌋`; weekday of day `d` is
  `d % 7` with `0` = Monday (the epoch is a Monday), matching Python's
  `datetime.weekday()` numbering used by `dateutil.rrule`.
* `dateutil.rrule` is modelled at the date level: for `freq=DAILY` with
  `dtstart = t`, `rule.after(t)` is `t` plus one day; for `freq=WEEKLY` with
  `byweekday` set, occurrences fall on matching weekdays at `dtstart`'s
  time-of-day, so `rule.after(t)` is the first matching date strictly after
  `t`'s date, at `t`'s time-of-day.  An empty parsed weekday list yields no
  occurrence (`after` returns `None`).
* Python exceptions are modelled with `Except Unit`: sorting a history that
  mixes naive and aware datetimes raises `TypeError`, subtracting a naive
  from an aware datetime raises `TypeError`, and calling `.replace` on a
  `None` returned by the unguarded second `rule.after` raises
  `AttributeError`.  The `try/except` of `_update_state` catches all of
  them.
-/

/-- Seconds in a day. -/
def secPerDay : ℚ := 86400

/-- A timestamp: seconds since the local epoch (a Monday, 00:00) plus the
timezone-awareness flag of the Python `datetime`. -/
structure Ts where
  q : ℚ
  aware : Bool
deriving DecidableEq

/-- Comparison used when Python sorts datetimes (within one zone the order is
the order of the clock values). -/
def tsLe (a b : Ts) : Prop := a.q ≤ b.q

instance : DecidableRel tsLe := fun a b => inferInstanceAs (Decidable (a.q ≤ b.q))

instance : IsTotal Ts tsLe := ⟨fun a b => le_total a.q b.q⟩

instance : IsTrans Ts tsLe := ⟨fun _ _ _ hab hbc => le_trans hab hbc⟩

/-- `t.replace(tzinfo=dt_util.DEFAULT_TIME_ZONE)` applied only when `t` is
naive: the clock value is unchanged, the value becomes aware. -/
def attachTz (t : Ts) : Ts := if t.aware then t else ⟨t.q, true⟩

/-- `datetime + timedelta`: shifts the clock value, keeps the `tzinfo`. -/
def tsAddDelta (t : Ts) (d : ℚ) : Ts := ⟨t.q + d, t.aware⟩

/-- `timedelta(days=n)` in seconds. -/
def daysToSec (n : ℤ) : ℚ := (n : ℚ) * secPerDay

/-- `datetime - datetime`: raises `TypeError` when exactly one side is naive,
otherwise yields the `timedelta` (in seconds). -/
def tsSub (a b : Ts) : Except Unit ℚ :=
  if a.aware = b.aware then .ok (a.q - b.q) else .error ()

/-- The calendar date (`datetime.date()`) of a clock value, as a day count. -/
def dateOf (q : ℚ) : ℤ := ⌊q / secPerDay⌋

/-- The time-of-day part of a clock value, in seconds from midnight. -/
def todOf (q : ℚ) : ℚ := q - (dateOf q : ℚ) * secPerDay

/-- `timedelta.days`: the floor of the delta in days (Python normalizes so
that `days` may be negative while the remainder is nonnegative). -/
def tdDays (d : ℚ) : ℤ := ⌊d / secPerDay⌋

/-- `timedelta.seconds`: the whole seconds of the nonnegative remainder after
removing whole days; sub-second parts are kept in `microseconds` and are not
visible here. -/
def tdSeconds (d : ℚ) : ℤ := ⌊d - (tdDays d : ℚ) * secPerDay⌋

/-- `WEEKDAY_MAP` of the source, with `dateutil` weekday constants rendered
as Python weekday numbers (`MO = 0` … `SU = 6`). -/
def WEEKDAY_MAP : String → Option ℤ
  | "mon" => some 0
  | "tue" => some 1
  | "wed" => some 2
  | "thu" => some 3
  | "fri" => some 4
  | "sat" => some 5
  | "sun" => some 6
  | _ => none

/-- First day `d` with `start ≤ d < start + fuel` whose weekday is in `wds`.
Seven days of fuel suffice for any nonempty set of real weekdays. -/
def searchDate (wds : List ℤ) : ℕ → ℤ → Option ℤ
  | 0, _ => none
  | fuel + 1, d => if d % 7 ∈ wds then some d else searchDate wds fuel (d + 1)

/-- `rrule.rrule(freq, byweekday=byweekday, dtstart=t).after(t)` at the date
level: occurrences carry `t`'s time-of-day, so the first occurrence strictly
after `t` is on the first (matching) date strictly after `t`'s date.
`byweekday = none` models `freq=DAILY` with no weekday filter. -/
def rruleAfter (byweekday : Option (List ℤ)) (t : Ts) : Option Ts :=
  match byweekday with
  | none => some ⟨t.q + secPerDay, t.aware⟩
  | some wds =>
      (searchDate wds 7 (dateOf t.q + 1)).map fun (d : ℤ) =>
        ⟨(d : ℚ) * secPerDay + todOf t.q, t.aware⟩

/-- Time-of-day of a task schedule (`datetime.time`); the seconds component
is parsed from the stored string but zeroed by the `replace` call. -/
structure TimeOfDay where
  hour : ℕ
  minute : ℕ
  second : ℕ
deriving DecidableEq

/-- The clock-seconds value of `replace(hour=.., minute=.., second=0,
microsecond=0)`. -/
def targetSec (t : TimeOfDay) : ℚ := ((t.hour : ℚ) * 3600 + (t.minute : ℚ) * 60)

/-- `occurrence.replace(hour=target.hour, minute=target.minute, second=0,
microsecond=0, tzinfo=start_point.tzinfo)`: same date, requested clock time.
(The source passes `start_point.tzinfo`, which equals the occurrence's own
zone.) -/
def replaceTime (t : Ts) (target : TimeOfDay) : Ts :=
  ⟨(dateOf t.q : ℚ) * secPerDay + targetSec target, t.aware⟩

/-- The `schedule` dict: a `time` entry (possibly `None`) and a `days` list. -/
structure Schedule where
  timeOfDay : Option TimeOfDay
  days : List String
deriving DecidableEq

/-- `TYPE_FIXED` from `const.py`. -/
def TYPE_FIXED : String := "fixed"

/-- `TYPE_SLIDING` from `const.py`. -/
def TYPE_SLIDING : String := "sliding"

/-- `TYPE_PREDICTIVE` from `const.py`. -/
def TYPE_PREDICTIVE : String := "predictive"

/-- The immutable configuration of one `TaskSensor`. -/
structure Config where
  calcType : String
  intervalDays : Option ℤ
  schedule : Option Schedule
  iconDefault : String
deriving DecidableEq

/-- Python truthiness of `self._interval_days`: `None` and `0` are falsy. -/
def intervalTruthy : Option ℤ → Bool
  | none => false
  | some n => n ≠ 0

/-- The mutable state of one `TaskSensor`. -/
structure TaskState where
  state : String
  icon : String
  lastDone : Option Ts
  nextDue : Option Ts
  daysRemaining : Option ℤ
  history : List Ts
deriving DecidableEq

/-- Python `sorted` / `list.sort` on datetimes: raises `TypeError` as soon as
a naive and an aware value are compared, which happens exactly when the list
mixes the two kinds; otherwise sorts ascending. -/
def sortedE (l : List Ts) : Except Unit (List Ts) :=
  if l.all (fun t => t.aware) || l.all (fun t => !t.aware) then
    .ok (List.insertionSort tsLe l)
  else .error ()

/-- Lines 179-249 of `_update_state`: the computation of `calculated_next`,
with `.error ()` standing for a raised exception. -/
def computeNext (cfg : Config) (st : TaskState) (now : Ts) : Except Unit (Option Ts) :=
  if cfg.calcType = TYPE_PREDICTIVE then
    let step1 : Except Unit (Option Ts) :=
      if 2 ≤ st.history.length then
        match sortedE st.history with
        | .error e => .error e
        | .ok sortedHist =>
            let deltas := List.zipWith (fun a b => a.q - b.q) sortedHist.tail sortedHist
            if deltas.isEmpty then .ok none
            else
              let avgSeconds := deltas.sum / (deltas.length : ℚ)
              let avgInterval := avgSeconds
              match st.lastDone with
              | some ld => .ok (some (tsAddDelta ld avgInterval))
              | none => .ok none
      else .ok none
    match step1 with
    | .error e => .error e
    | .ok calcd =>
        if calcd.isNone && intervalTruthy cfg.intervalDays then
          match st.lastDone with
          | some ld => .ok (some (tsAddDelta ld (daysToSec (cfg.intervalDays.getD 0))))
          | none => .ok (some (tsAddDelta now (daysToSec (cfg.intervalDays.getD 0))))
        else .ok calcd
  else if cfg.calcType = TYPE_SLIDING then
    match st.lastDone with
    | some ld =>
        if intervalTruthy cfg.intervalDays then
          .ok (some (tsAddDelta ld (daysToSec (cfg.intervalDays.getD 0))))
        else
          .ok (some (tsAddDelta now (daysToSec 1)))
    | none =>
        .ok (some (tsAddDelta now
          (daysToSec (if intervalTruthy cfg.intervalDays then cfg.intervalDays.getD 0 else 1))))
  else if cfg.calcType = TYPE_FIXED then
    match cfg.schedule with
    | some sch =>
        let targetTime := sch.timeOfDay.getD ⟨0, 0, 0⟩
        let byweekday : Option (List ℤ) :=
          if sch.days.isEmpty then none else some (sch.days.filterMap WEEKDAY_MAP)
        let startPoint := attachTz (st.lastDone.getD now)
        match rruleAfter byweekday startPoint with
        | none => .ok none
        | some nextOccurrence =>
            let calculated := replaceTime nextOccurrence targetTime
            if calculated.q ≤ startPoint.q then
              match rruleAfter byweekday (tsAddDelta startPoint secPerDay) with
              | none => .error ()
              | some occ2 => .ok (some (replaceTime occ2 targetTime))
            else .ok (some calculated)
    | none =>
        if intervalTruthy cfg.intervalDays then
          match st.lastDone with
          | some ld => .ok (some (tsAddDelta ld (daysToSec (cfg.intervalDays.getD 0))))
          | none => .ok (some (tsAddDelta now (daysToSec (cfg.intervalDays.getD 0))))
        else .ok none
  else .ok none

/-- Lines 253-270 of `_update_state`: classification of the (already
assigned) `self._next_due` into state, icon and `days_remaining`. -/
def classifyAssign (cfg : Config) (st : TaskState) (now : Ts) : Except Unit TaskState :=
  match st.nextDue with
  | some nd =>
      match tsSub nd now with
      | .error e => .error e
      | .ok delta =>
          let dr : ℤ := tdDays delta + (if 0 < tdSeconds delta then 1 else 0)
          if nd.q < now.q then
            .ok { st with daysRemaining := some dr, state := "Overdue",
                          icon := "mdi:alert-circle" }
          else if dateOf nd.q = dateOf now.q then
            .ok { st with daysRemaining := some dr, state := "Due Today",
                          icon := "mdi:calendar-today" }
          else
            .ok { st with daysRemaining := some dr,
                          state := "Due in " ++ toString dr ++ " days",
                          icon := cfg.iconDefault }
  | none =>
      .ok { st with
              state := if cfg.calcType = TYPE_PREDICTIVE then "Need more history" else "Unknown",
              daysRemaining := none, icon := "mdi:help-circle-outline" }

/-- `TaskSensor._update_state`: compute, assign `self._next_due`, classify;
any exception is caught and the state is forced to `Error` with the alert
icon (the already-performed assignment to `self._next_due` survives). -/
def updateState (cfg : Config) (st : TaskState) (nowq : ℚ) : TaskState :=
  let now : Ts := ⟨nowq, true⟩
  match computeNext cfg st now with
  | .error _ => { st with state := "Error", icon := "mdi:alert" }
  | .ok calcd =>
      let st1 := { st with nextDue := calcd }
      match classifyAssign cfg st1 now with
      | .ok st2 => st2
      | .error _ => { st1 with state := "Error", icon := "mdi:alert" }

/-- The `done_time` computed by `mark_as_done`: the custom date (made aware
if naive) when given and truthy, else `dt_util.now()`. -/
def markDoneTime (nowq : ℚ) (customDate : Option Ts) : Ts :=
  match customDate with
  | some c => attachTz c
  | none => ⟨nowq, true⟩

/-- `TaskSensor.mark_as_done`: append, sort (may raise on mixed-awareness
history — `mark_as_done` has no `try`, so that propagates), truncate to the
last 10, set `self._last_done` to the last history entry, recompute. -/
def markAsDone (cfg : Config) (st : TaskState) (nowq : ℚ) (customDate : Option Ts) :
    Except Unit TaskState :=
  let doneTime := markDoneTime nowq customDate
  match sortedE (st.history ++ [doneTime]) with
  | .error e => .error e
  | .ok sortedH =>
      let h := sortedH.drop (sortedH.length - 10)
      let st1 := { st with
                     history := h,
                     lastDone := match h.getLast? with
                       | some x => some x
                       | none => st.lastDone }
      .ok (updateState cfg st1 nowq)

/-- `TaskSensor.reset_history`: clear history and `last_done`, recompute. -/
def resetHistory (cfg : Config) (st : TaskState) (nowq : ℚ) : TaskState :=
  updateState cfg { st with history := [], lastDone := none } nowq

/-- The consecutive gaps (`h[i+1] - h[i]`) of a history list, in seconds. -/
def gapsOf (l : List Ts) : List ℚ :=
  List.zipWith (fun a b => a.q - b.q) l.tail l

/-- The arithmetic mean of the consecutive gaps of a history list. -/
def meanGap (l : List Ts) : ℚ := (gapsOf l).sum / ((gapsOf l).length : ℚ)

/-- The remainder-of-day of a `timedelta`, including sub-second parts: what
the specification's `days_remaining` rule rounds up on. -/
def remOfDay (d : ℚ) : ℚ := d - (tdDays d : ℚ) * secPerDay

/-- The `days_remaining` value as the specification states it: `delta.days`
plus one exactly when the remainder-of-day is nonzero. -/
def specDaysRemaining (d : ℚ) : ℤ :=
  tdDays d + (if remOfDay d ≠ 0 then 1 else 0)

/-- The `days_remaining` value as the source computes it from a delta. -/
def drOf (d : ℚ) : ℤ := tdDays d + (if 0 < tdSeconds d then 1 else 0)

theorem secPerDay_pos : (0 : ℚ) < secPerDay := by norm_num [secPerDay]

theorem dateOf_mk (d : ℤ) (t : ℚ) (h0 : 0 ≤ t) (h1 : t < secPerDay) :
    dateOf ((d : ℚ) * secPerDay + t) = d := by
  unfold dateOf
  rw [Int.floor_eq_iff]
  constructor
  · rw [le_div_iff secPerDay_pos]
    nlinarith [secPerDay_pos]
  · rw [div_lt_iff secPerDay_pos]
    push_cast
    nlinarith [secPerDay_pos]

theorem dateOf_intCast (d : ℤ) : dateOf ((d : ℚ) * secPerDay) = d := by
  have h := dateOf_mk d 0 le_rfl secPerDay_pos
  simpa using h

theorem todOf_nonneg (q : ℚ) : 0 ≤ todOf q := by
  unfold todOf dateOf
  have h := Int.floor_le (q / secPerDay)
  have h2 : (⌊q / secPerDay⌋ : ℚ) * secPerDay ≤ q / secPerDay * secPerDay :=
    mul_le_mul_of_nonneg_right h (le_of_lt secPerDay_pos)
  rw [div_mul_cancel₀ _ (ne_of_gt secPerDay_pos)] at h2
  linarith

theorem todOf_lt (q : ℚ) : todOf q < secPerDay := by
  unfold todOf dateOf
  have h := Int.lt_floor_add_one (q / secPerDay)
  have h2 : q / secPerDay * secPerDay < ((⌊q / secPerDay⌋ : ℚ) + 1) * secPerDay :=
    mul_lt_mul_of_pos_right h secPerDay_pos
  rw [div_mul_cancel₀ _ (ne_of_gt secPerDay_pos)] at h2
  linarith

theorem decompose_dateOf (q : ℚ) : q = (dateOf q : ℚ) * secPerDay + todOf q := by
  unfold todOf
  ring

theorem tdDays_eq (d : ℚ) (n : ℤ) (h0 : (n : ℚ) * secPerDay ≤ d)
    (h1 : d < ((n : ℚ) + 1) * secPerDay) : tdDays d = n := by
  unfold tdDays
  rw [Int.floor_eq_iff]
  constructor
  · rw [le_div_iff secPerDay_pos]; linarith
  · rw [div_lt_iff secPerDay_pos]; push_cast; linarith

theorem tdSeconds_eq (d : ℚ) (n : ℤ) (h : tdDays d = n) (m : ℤ)
    (h0 : (m : ℚ) ≤ d - (n : ℚ) * secPerDay)
    (h1 : d - (n : ℚ) * secPerDay < (m : ℚ) + 1) : tdSeconds d = m := by
  unfold tdSeconds
  rw [h, Int.floor_eq_iff]
  exact ⟨h0, by push_cast; linarith⟩

theorem searchDate_some {wds : List ℤ} :
    ∀ (fuel : ℕ) (d r : ℤ), searchDate wds fuel d = some r →
      d ≤ r ∧ r < d + fuel ∧ r % 7 ∈ wds ∧ ∀ x, d ≤ x → x < r → x % 7 ∉ wds := by
  intro fuel
  induction fuel with
  | zero => intro d r h; simp [searchDate] at h
  | succ n ih =>
      intro d r h
      unfold searchDate at h
      by_cases hd : d % 7 ∈ wds
      · rw [if_pos hd] at h
        cases h
        exact ⟨le_rfl, by omega, hd, fun x hx1 hx2 => absurd (lt_of_lt_of_le hx2 hx1) (by omega)⟩
      · rw [if_neg hd] at h
        obtain ⟨ha, hb, hc, hmin⟩ := ih (d + 1) r h
        refine ⟨by omega, by push_cast; push_cast at hb; omega, hc, ?_⟩
        intro x hx1 hx2
        rcases eq_or_lt_of_le hx1 with heq | hlt
        · exact heq ▸ hd
        · exact hmin x (by omega) hx2

theorem searchDate_isSome {wds : List ℤ} :
    ∀ (fuel : ℕ) (d x : ℤ), d ≤ x → x < d + fuel → x % 7 ∈ wds →
      (searchDate wds fuel d).isSome := by
  intro fuel
  induction fuel with
  | zero => intro d x h1 h2 _; exfalso; push_cast at h2; omega
  | succ n ih =>
      intro d x h1 h2 hx
      unfold searchDate
      by_cases hd : d % 7 ∈ wds
      · rw [if_pos hd]; rfl
      · rw [if_neg hd]
        have hne : d ≠ x := fun he => hd (he ▸ hx)
        exact ih (d + 1) x (by omega) (by push_cast; push_cast at h2; omega) hx

theorem weekday_bounds {days : List String} {w : ℤ}
    (h : w ∈ days.filterMap WEEKDAY_MAP) : 0 ≤ w ∧ w < 7 := by
  obtain ⟨s, _, hmap⟩ := List.mem_filterMap.mp h
  unfold WEEKDAY_MAP at hmap
  split at hmap <;> simp_all <;> omega

theorem exists_day_in_window (w : ℤ) (hw0 : 0 ≤ w) (hw7 : w < 7) (d : ℤ) :
    ∃ x, d ≤ x ∧ x < d + 7 ∧ x % 7 = w :=
  ⟨d + (w - d) % 7, by omega, by omega, by omega⟩

theorem classify_some_overdue {cfg : Config} {st : TaskState} {now nd : Ts}
    (h : st.nextDue = some nd) (ha : nd.aware = now.aware) (hlt : nd.q < now.q) :
    classifyAssign cfg st now =
      .ok { st with daysRemaining := some (drOf (nd.q - now.q)),
                    state := "Overdue", icon := "mdi:alert-circle" } := by
  simp only [classifyAssign, h, tsSub, if_pos ha, if_pos hlt, drOf]

theorem classify_some_today {cfg : Config} {st : TaskState} {now nd : Ts}
    (h : st.nextDue = some nd) (ha : nd.aware = now.aware) (hge : ¬ nd.q < now.q)
    (htoday : dateOf nd.q = dateOf now.q) :
    classifyAssign cfg st now =
      .ok { st with daysRemaining := some (drOf (nd.q - now.q)),
                    state := "Due Today", icon := "mdi:calendar-today" } := by
  simp only [classifyAssign, h, tsSub, if_pos ha, if_neg hge, if_pos htoday, drOf]

theorem classify_some_future {cfg : Config} {st : TaskState} {now nd : Ts}
    (h : st.nextDue = some nd) (ha : nd.aware = now.aware) (hge : ¬ nd.q < now.q)
    (htoday : dateOf nd.q ≠ dateOf now.q) :
    classifyAssign cfg st now =
      .ok { st with daysRemaining := some (drOf (nd.q - now.q)),
                    state := "Due in " ++ toString (drOf (nd.q - now.q)) ++ " days",
                    icon := cfg.iconDefault } := by
  simp only [classifyAssign, h, tsSub, if_pos ha, if_neg hge, if_neg htoday, drOf]

theorem classify_none {cfg : Config} {st : TaskState} {now : Ts}
    (h : st.nextDue = none) :
    classifyAssign cfg st now =
      .ok { st with
              state := if cfg.calcType = TYPE_PREDICTIVE then "Need more history" else "Unknown",
              daysRemaining := none, icon := "mdi:help-circle-outline" } := by
  simp only [classifyAssign, h]

theorem classify_err_of_naive {cfg : Config} {st : TaskState} {now nd : Ts}
    (h : st.nextDue = some nd) (ha : nd.aware ≠ now.aware) :
    classifyAssign cfg st now = .error () := by
  simp only [classifyAssign, h, tsSub, if_neg ha]

theorem classify_frame {cfg : Config} {st st2 : TaskState} {now : Ts}
    (h : classifyAssign cfg st now = .ok st2) :
    st2.history = st.history ∧ st2.lastDone = st.lastDone ∧ st2.nextDue = st.nextDue := by
  rcases hnd : st.nextDue with _ | nd
  · rw [classify_none hnd] at h
    injection h with h2
    subst h2
    exact ⟨rfl, rfl, hnd⟩
  · by_cases ha : nd.aware = now.aware
    · by_cases hlt : nd.q < now.q
      · rw [classify_some_overdue hnd ha hlt] at h
        injection h with h2
        subst h2
        exact ⟨rfl, rfl, hnd⟩
      · by_cases htd : dateOf nd.q = dateOf now.q
        · rw [classify_some_today hnd ha hlt htd] at h
          injection h with h2
          subst h2
          exact ⟨rfl, rfl, hnd⟩
        · rw [classify_some_future hnd ha hlt htd] at h
          injection h with h2
          subst h2
          exact ⟨rfl, rfl, hnd⟩
    · rw [classify_err_of_naive hnd ha] at h
      exact absurd h (by simp)

theorem updateState_computeErr {cfg : Config} {st : TaskState} {nowq : ℚ}
    (h : computeNext cfg st ⟨nowq, true⟩ = .error ()) :
    updateState cfg st nowq = { st with state := "Error", icon := "mdi:alert" } := by
  simp only [updateState, h]

theorem updateState_classify {cfg : Config} {st st2 : TaskState} {nowq : ℚ}
    {c : Option Ts} (h : computeNext cfg st ⟨nowq, true⟩ = .ok c)
    (h2 : classifyAssign cfg { st with nextDue := c } ⟨nowq, true⟩ = .ok st2) :
    updateState cfg st nowq = st2 := by
  simp only [updateState, h, h2]

theorem updateState_classifyErr {cfg : Config} {st : TaskState} {nowq : ℚ}
    {c : Option Ts} (h : computeNext cfg st ⟨nowq, true⟩ = .ok c)
    (h2 : classifyAssign cfg { st with nextDue := c } ⟨nowq, true⟩ = .error ()) :
    updateState cfg st nowq =
      { st with nextDue := c, state := "Error", icon := "mdi:alert" } := by
  simp only [updateState, h, h2]

theorem updateState_nextDue {cfg : Config} {st : TaskState} {nowq : ℚ}
    {c : Option Ts} (h : computeNext cfg st ⟨nowq, true⟩ = .ok c) :
    (updateState cfg st nowq).nextDue = c := by
  simp only [updateState, h]
  rcases h2 : classifyAssign cfg { st with nextDue := c } ⟨nowq, true⟩ with e | st2
  · rfl
  · exact (classify_frame h2).2.2

theorem attachTz_aware (t : Ts) : (attachTz t).aware = true := by
  unfold attachTz
  split
  · rename_i h; exact h
  · rfl

theorem attachTz_of_aware {t : Ts} (h : t.aware = true) : attachTz t = t := by
  unfold attachTz
  rw [if_pos h]

theorem markDoneTime_aware (nowq : ℚ) (c : Option Ts) :
    (markDoneTime nowq c).aware = true := by
  unfold markDoneTime
  cases c
  · rfl
  · exact attachTz_aware _

theorem sortedE_ok_of_aware {l : List Ts} (h : l.all (fun t => t.aware) = true) :
    sortedE l = .ok (List.insertionSort tsLe l) := by
  unfold sortedE
  rw [if_pos]
  rw [h]
  rfl

theorem aware_of_mem {l : List Ts} (h : l.all (fun t => t.aware) = true) {x : Ts}
    (hx : x ∈ l) : x.aware = true :=
  List.all_eq_true.mp h x hx

theorem all_aware_append {l : List Ts} (h : l.all (fun t => t.aware) = true) {d : Ts}
    (hd : d.aware = true) : (l ++ [d]).all (fun t => t.aware) = true := by
  rw [List.all_append, h, Bool.true_and]
  simp [hd]

theorem sorted_getLast_max {l : List Ts} (hs : List.Sorted tsLe l) {m : Ts}
    (h : l.getLast? = some m) : ∀ x ∈ l, x.q ≤ m.q := by
  induction l with
  | nil => simp at h
  | cons a t ih =>
      cases t with
      | nil =>
          simp only [List.getLast?_singleton, Option.some.injEq] at h
          subst h
          intro x hx
          rw [List.mem_singleton] at hx
          subst hx
          exact le_rfl
      | cons b t2 =>
          rw [List.getLast?_cons_cons] at h
          intro x hx
          rcases List.mem_cons.mp hx with rfl | hx2
          · exact List.rel_of_sorted_cons hs m (List.mem_of_mem_getLast? h)
          · exact ih hs.of_cons h x hx2

theorem sorted_head_min {m : Ts} {rest : List Ts}
    (hs : List.Sorted tsLe (m :: rest)) : ∀ x ∈ m :: rest, m.q ≤ x.q := by
  intro x hx
  rcases List.mem_cons.mp hx with rfl | hx2
  · exact le_rfl
  · exact List.rel_of_sorted_cons hs x hx2

theorem getLast?_drop_of_lt {l : List Ts} {n : ℕ} (h : n < l.length) :
    (l.drop n).getLast? = l.getLast? := by
  rw [List.getLast?_eq_getElem?, List.getLast?_eq_getElem?, List.getElem?_drop,
      List.length_drop]
  congr 1
  omega

theorem updateState_frame (cfg : Config) (st : TaskState) (nowq : ℚ) :
    (updateState cfg st nowq).history = st.history ∧
    (updateState cfg st nowq).lastDone = st.lastDone := by
  rcases h : computeNext cfg st ⟨nowq, true⟩ with e | c
  · cases e
    rw [updateState_computeErr h]
    exact ⟨rfl, rfl⟩
  · rcases h2 : classifyAssign cfg { st with nextDue := c } ⟨nowq, true⟩ with e2 | st2
    · cases e2
      rw [updateState_classifyErr h h2]
      exact ⟨rfl, rfl⟩
    · rw [updateState_classify h h2]
      obtain ⟨hh, hl, _⟩ := classify_frame h2
      exact ⟨hh, hl⟩

theorem computeNext_sliding_last {cfg : Config} {st : TaskState} {now ld : Ts}
    (h : cfg.calcType = TYPE_SLIDING) (hld : st.lastDone = some ld)
    (hint : intervalTruthy cfg.intervalDays = true) :
    computeNext cfg st now =
      .ok (some (tsAddDelta ld (daysToSec (cfg.intervalDays.getD 0)))) := by
  simp [computeNext, h, hld, hint, TYPE_SLIDING, TYPE_PREDICTIVE]

theorem computeNext_sliding_nolast {cfg : Config} {st : TaskState} {now : Ts}
    (h : cfg.calcType = TYPE_SLIDING) (hld : st.lastDone = none) :
    computeNext cfg st now =
      .ok (some (tsAddDelta now
        (daysToSec (if intervalTruthy cfg.intervalDays then cfg.intervalDays.getD 0 else 1)))) := by
  simp [computeNext, h, hld, TYPE_SLIDING, TYPE_PREDICTIVE]

theorem computeNext_predictive_hist {cfg : Config} {st : TaskState} {now ld : Ts}
    (h : cfg.calcType = TYPE_PREDICTIVE)
    (hall : st.history.all (fun t => t.aware) = true)
    (hlen : 2 ≤ st.history.length) (hld : st.lastDone = some ld) :
    computeNext cfg st now =
      .ok (some (tsAddDelta ld (meanGap (List.insertionSort tsLe st.history)))) := by
  have hne : (List.zipWith (fun a b : Ts => a.q - b.q)
      (List.insertionSort tsLe st.history).tail
      (List.insertionSort tsLe st.history)).isEmpty = false := by
    have hlen2 : (List.insertionSort tsLe st.history).length = st.history.length :=
      List.length_insertionSort tsLe st.history
    have hzl : (List.zipWith (fun a b : Ts => a.q - b.q)
        (List.insertionSort tsLe st.history).tail
        (List.insertionSort tsLe st.history)).length =
        st.history.length - 1 := by
      rw [List.length_zipWith, List.length_tail, hlen2]
      omega
    rcases hzip : List.zipWith (fun a b : Ts => a.q - b.q)
        (List.insertionSort tsLe st.history).tail
        (List.insertionSort tsLe st.history) with _ | ⟨z, zs⟩
    · rw [hzip] at hzl
      simp at hzl
      omega
    · rfl
  simp [computeNext, h, hld, hlen, sortedE_ok_of_aware hall, hne, meanGap, gapsOf,
    TYPE_PREDICTIVE]

theorem computeNext_predictive_fb_last {cfg : Config} {st : TaskState} {now ld : Ts}
    (h : cfg.calcType = TYPE_PREDICTIVE) (hlen : st.history.length < 2)
    (hld : st.lastDone = some ld) (hint : intervalTruthy cfg.intervalDays = true) :
    computeNext cfg st now =
      .ok (some (tsAddDelta ld (daysToSec (cfg.intervalDays.getD 0)))) := by
  simp [computeNext, h, hld, hint, TYPE_PREDICTIVE, show ¬ 2 ≤ st.history.length by omega]

theorem computeNext_predictive_fb_nolast {cfg : Config} {st : TaskState} {now : Ts}
    (h : cfg.calcType = TYPE_PREDICTIVE) (hlen : st.history.length < 2)
    (hld : st.lastDone = none) (hint : intervalTruthy cfg.intervalDays = true) :
    computeNext cfg st now =
      .ok (some (tsAddDelta now (daysToSec (cfg.intervalDays.getD 0)))) := by
  simp [computeNext, h, hld, hint, TYPE_PREDICTIVE, show ¬ 2 ≤ st.history.length by omega]

theorem computeNext_predictive_nofb {cfg : Config} {st : TaskState} {now : Ts}
    (h : cfg.calcType = TYPE_PREDICTIVE) (hlen : st.history.length < 2)
    (hint : intervalTruthy cfg.intervalDays = false) :
    computeNext cfg st now = .ok none := by
  simp [computeNext, h, hint, TYPE_PREDICTIVE, show ¬ 2 ≤ st.history.length by omega]

theorem targetSec_nonneg (t : TimeOfDay) : 0 ≤ targetSec t := by
  unfold targetSec
  positivity

theorem computeNext_fixed_weekly {cfg : Config} {st : TaskState} {now : Ts} {sch : Schedule}
    (h : cfg.calcType = TYPE_FIXED) (hsch : cfg.schedule = some sch)
    (hdays : sch.days ≠ []) (hwds : sch.days.filterMap WEEKDAY_MAP ≠ []) :
    ∃ d : ℤ,
      dateOf (attachTz (st.lastDone.getD now)).q < d ∧
      d % 7 ∈ sch.days.filterMap WEEKDAY_MAP ∧
      (∀ e : ℤ, dateOf (attachTz (st.lastDone.getD now)).q < e →
        e % 7 ∈ sch.days.filterMap WEEKDAY_MAP → d ≤ e) ∧
      computeNext cfg st now =
        .ok (some ⟨(d : ℚ) * secPerDay + targetSec (sch.timeOfDay.getD ⟨0, 0, 0⟩), true⟩) ∧
      (attachTz (st.lastDone.getD now)).q <
        (d : ℚ) * secPerDay + targetSec (sch.timeOfDay.getD ⟨0, 0, 0⟩) := by
  have hanchor : (attachTz (st.lastDone.getD now)).aware = true := attachTz_aware _
  obtain ⟨w, hw⟩ := List.exists_mem_of_ne_nil _ hwds
  obtain ⟨hw0, hw7⟩ := weekday_bounds hw
  obtain ⟨x, hx1, hx2, hx7⟩ :=
    exists_day_in_window w hw0 hw7 (dateOf (attachTz (st.lastDone.getD now)).q + 1)
  have hsome := searchDate_isSome 7 (dateOf (attachTz (st.lastDone.getD now)).q + 1) x hx1
    (by push_cast; omega) (by rw [hx7]; exact hw)
  obtain ⟨d, hsd⟩ := Option.isSome_iff_exists.mp hsome
  obtain ⟨h1, h2, h3, hmin⟩ := searchDate_some 7 _ d hsd
  have htod0 := todOf_nonneg (attachTz (st.lastDone.getD now)).q
  have htod1 := todOf_lt (attachTz (st.lastDone.getD now)).q
  have htarget := targetSec_nonneg (sch.timeOfDay.getD ⟨0, 0, 0⟩)
  have hdq : ((dateOf (attachTz (st.lastDone.getD now)).q + 1 : ℤ) : ℚ) ≤ (d : ℚ) := by
    exact_mod_cast h1
  have hanchor_decomp := decompose_dateOf (attachTz (st.lastDone.getD now)).q
  have hafter : (attachTz (st.lastDone.getD now)).q <
      (d : ℚ) * secPerDay + targetSec (sch.timeOfDay.getD ⟨0, 0, 0⟩) := by
    push_cast at hdq
    nlinarith [secPerDay_pos]
  refine ⟨d, by omega, h3, ?_, ?_, hafter⟩
  · intro e he1 he2
    by_contra hcon
    exact hmin e (by omega) (by omega) he2
  · have hempty : sch.days.isEmpty = false := List.isEmpty_eq_false.mpr hdays
    have hocc : rruleAfter (some (sch.days.filterMap WEEKDAY_MAP))
        (attachTz (st.lastDone.getD now)) =
        some ⟨(d : ℚ) * secPerDay + todOf (attachTz (st.lastDone.getD now)).q,
              (attachTz (st.lastDone.getD now)).aware⟩ := by
      simp [rruleAfter, hsd]
    have hdate : dateOf ((d : ℚ) * secPerDay +
        todOf (attachTz (st.lastDone.getD now)).q) = d :=
      dateOf_mk d _ htod0 htod1
    have hguard : ¬ ((d : ℚ) * secPerDay + targetSec (sch.timeOfDay.getD ⟨0, 0, 0⟩) ≤
        (attachTz (st.lastDone.getD now)).q) := not_le.mpr hafter
    simp [computeNext, h, hsch, hempty, hocc, replaceTime, hdate, hanchor,
      if_neg hguard, TYPE_FIXED, TYPE_PREDICTIVE, TYPE_SLIDING]

/-- A sliding-policy configuration with interval `i` days. -/
def slidingCfg (i : ℤ) : Config := ⟨TYPE_SLIDING, some i, none, "mdi:check"⟩

/-- A predictive-policy configuration without an interval fallback. -/
def predictiveCfg : Config := ⟨TYPE_PREDICTIVE, none, none, "mdi:check"⟩

/-- A predictive-policy configuration with interval fallback `i` days. -/
def predictiveFbCfg (i : ℤ) : Config := ⟨TYPE_PREDICTIVE, some i, none, "mdi:check"⟩

/-- A task state that was never completed. -/
def emptySt : TaskState := ⟨"Unknown", "mdi:check", none, none, none, []⟩

/-- A task state whose single completion is `t`. -/
def stWithLast (t : Ts) : TaskState := ⟨"Unknown", "mdi:check", some t, none, none, [t]⟩

/-- C10: `_update_state` never mutates `_history` or `_last_done`: every
branch of the recompute — including the caught-exception branch that forces
`Error` — leaves both fields exactly as they were before the call. -/
theorem claim_C10 (cfg : Config) (st : TaskState) (nowq : ℚ) :
    (updateState cfg st nowq).history = st.history ∧
    (updateState cfg st nowq).lastDone = st.lastDone :=
  updateState_frame cfg st nowq

/-- C3: for a Sliding task with `interval_days ≥ 1` and an empty completion
history (hence no `last_completion`), the recomputed `next_due` is
`now + interval_days`. -/
theorem claim_C3 (cfg : Config) (st : TaskState) (nowq : ℚ) (i : ℤ)
    (htype : cfg.calcType = TYPE_SLIDING) (hint : cfg.intervalDays = some i)
    (hi : 1 ≤ i) (hhist : st.history = []) (hld : st.lastDone = none) :
    (updateState cfg st nowq).nextDue = some ⟨nowq + (i : ℚ) * secPerDay, true⟩ := by
  have htruthy : intervalTruthy (some i) = true := by
    simp only [intervalTruthy]
    simpa using (by omega : i ≠ 0)
  have hc := @computeNext_sliding_nolast cfg st ⟨nowq, true⟩ htype hld
  simp [hint, htruthy] at hc
  exact updateState_nextDue hc

/-- Witness for C3 at a concrete input: a never-completed sliding task with a
7-day interval, evaluated at the epoch. -/
theorem claim_C3_witness :
    (updateState (slidingCfg 7) emptySt 0).nextDue =
      some ⟨0 + (7 : ℚ) * secPerDay, true⟩ :=
  claim_C3 (slidingCfg 7) emptySt 0 7 rfl rfl (by omega) rfl rfl

/-- C9: the recompute never propagates a modelled exception: whenever the
due-date computation (`computeNext`) or the classification raises, the
resulting state has status `Error` and the alert icon, and `updateState`
still returns a value. -/
theorem claim_C9 (cfg : Config) (st : TaskState) (nowq : ℚ) :
    (computeNext cfg st ⟨nowq, true⟩ = .error () →
      (updateState cfg st nowq).state = "Error" ∧
      (updateState cfg st nowq).icon = "mdi:alert") ∧
    (∀ c, computeNext cfg st ⟨nowq, true⟩ = .ok c →
      classifyAssign cfg { st with nextDue := c } ⟨nowq, true⟩ = .error () →
      (updateState cfg st nowq).state = "Error" ∧
      (updateState cfg st nowq).icon = "mdi:alert") := by
  constructor
  · intro h
    rw [updateState_computeErr h]
    exact ⟨rfl, rfl⟩
  · intro c h h2
    rw [updateState_classifyErr h h2]
    exact ⟨rfl, rfl⟩

/-- A state whose restored history mixes a naive and an aware timestamp, so
the predictive sort raises `TypeError`. -/
def mixedHistSt : TaskState := ⟨"Unknown", "mdi:check", none, none, none, [⟨0, false⟩, ⟨0, true⟩]⟩

/-- A state whose restored `last_done` is naive, so the classification
subtraction raises `TypeError`. -/
def naiveLastSt : TaskState := ⟨"Unknown", "mdi:check", some ⟨0, false⟩, none, none, [⟨0, false⟩]⟩

/-- Witness for C9 at concrete inputs: a predictive task whose history mixes
naive and aware datetimes (the sort raises), and a sliding task with a naive
restored `last_done` (the subtraction in the classifier raises). -/
theorem claim_C9_witness :
    ((updateState predictiveCfg mixedHistSt 0).state = "Error" ∧
      (updateState predictiveCfg mixedHistSt 0).icon = "mdi:alert") ∧
    ((updateState (slidingCfg 3) naiveLastSt 0).state = "Error" ∧
      (updateState (slidingCfg 3) naiveLastSt 0).icon = "mdi:alert") :=
  ⟨(claim_C9 predictiveCfg mixedHistSt 0).1 rfl,
   (claim_C9 (slidingCfg 3) naiveLastSt 0).2
     (some (tsAddDelta ⟨0, false⟩ (daysToSec 3))) rfl rfl⟩

/-- C8: a Predictive task with fewer than two history entries follows the
Sliding semantics when an `interval_days` fallback is configured
(`last_done + interval` when a completion exists, else `now + interval`);
with no fallback, `next_due` is absent, the status is `Need more history`,
the icon is the help icon and `days_remaining` is cleared. -/
theorem claim_C8 (cfg : Config) (st : TaskState) (nowq : ℚ)
    (htype : cfg.calcType = TYPE_PREDICTIVE) (hlen : st.history.length < 2) :
    (∀ i : ℤ, cfg.intervalDays = some i → 1 ≤ i →
      (updateState cfg st nowq).nextDue =
        some (match st.lastDone with
              | some ld => tsAddDelta ld ((i : ℚ) * secPerDay)
              | none => tsAddDelta ⟨nowq, true⟩ ((i : ℚ) * secPerDay))) ∧
    (cfg.intervalDays = none →
      (updateState cfg st nowq).nextDue = none ∧
      (updateState cfg st nowq).state = "Need more history" ∧
      (updateState cfg st nowq).icon = "mdi:help-circle-outline" ∧
      (updateState cfg st nowq).daysRemaining = none) := by
  constructor
  · intro i hi h1i
    have htruthy : intervalTruthy cfg.intervalDays = true := by
      rw [hi]
      simp only [intervalTruthy]
      simpa using (by omega : i ≠ 0)
    rcases hld : st.lastDone with _ | ld
    · have hc := @computeNext_predictive_fb_nolast cfg st ⟨nowq, true⟩ htype hlen hld htruthy
      rw [hi] at hc
      exact updateState_nextDue hc
    · have hc := @computeNext_predictive_fb_last cfg st ⟨nowq, true⟩ ld htype hlen hld htruthy
      rw [hi] at hc
      exact updateState_nextDue hc
  · intro hnone
    have htruthy : intervalTruthy cfg.intervalDays = false := by
      rw [hnone]
      rfl
    have hc := @computeNext_predictive_nofb cfg st ⟨nowq, true⟩ htype hlen htruthy
    have hcls := @classify_none cfg { st with nextDue := (none : Option Ts) } ⟨nowq, true⟩ rfl
    rw [updateState_classify hc hcls]
    refine ⟨rfl, ?_, rfl, rfl⟩
    simp [htype]

/-- Witness for C8 at concrete inputs: a never-completed predictive task with
a 5-day fallback, and one without any fallback. -/
theorem claim_C8_witness :
    (updateState (predictiveFbCfg 5) emptySt 0).nextDue =
      some (tsAddDelta ⟨0, true⟩ ((5 : ℚ) * secPerDay)) ∧
    ((updateState predictiveCfg emptySt 0).nextDue = none ∧
      (updateState predictiveCfg emptySt 0).state = "Need more history" ∧
      (updateState predictiveCfg emptySt 0).icon = "mdi:help-circle-outline" ∧
      (updateState predictiveCfg emptySt 0).daysRemaining = none) :=
  ⟨(claim_C8 (predictiveFbCfg 5) emptySt 0 rfl (by decide)).1 5 rfl (by omega),
   (claim_C8 predictiveCfg emptySt 0 rfl (by decide)).2 rfl⟩

/-- C7: classification boundaries: when the computed `next_due` equals `now`
exactly, the status is `Due Today` (in particular not `Overdue` — `Overdue`
needs `next_due` strictly before `now`); when `next_due` falls on `now`'s
calendar date but strictly later in the day, the status is `Due Today` and
not `Due in 0 days`. -/
theorem claim_C7 (cfg : Config) (st : TaskState) (nowq : ℚ) (nd : Ts)
    (hc : computeNext cfg st ⟨nowq, true⟩ = .ok (some nd)) (ha : nd.aware = true) :
    (nd.q = nowq →
      (updateState cfg st nowq).state ≠ "Overdue" ∧
      (updateState cfg st nowq).state = "Due Today") ∧
    (dateOf nd.q = dateOf nowq → nowq < nd.q →
      (updateState cfg st nowq).state = "Due Today" ∧
      (updateState cfg st nowq).state ≠ "Due in 0 days") := by
  constructor
  · intro heq
    have hcls := @classify_some_today cfg { st with nextDue := some nd } ⟨nowq, true⟩ nd
      rfl ha (by rw [heq]; exact lt_irrefl _) (by rw [heq])
    rw [updateState_classify hc hcls]
    refine ⟨?_, rfl⟩
    show ("Due Today" : String) ≠ "Overdue"
    decide
  · intro hdate hlt
    have hcls := @classify_some_today cfg { st with nextDue := some nd } ⟨nowq, true⟩ nd
      rfl ha (by exact not_lt.mpr (le_of_lt hlt)) hdate
    rw [updateState_classify hc hcls]
    refine ⟨rfl, ?_⟩
    show ("Due Today" : String) ≠ "Due in 0 days"
    decide

/-- Witness for C7 at concrete inputs: a sliding task completed exactly three
days ago (due exactly at `now`), and one completed three days minus two hours
ago (due later on `now`'s date). -/
theorem claim_C7_witness :
    ((updateState (slidingCfg 3) (stWithLast ⟨-259200, true⟩) 0).state ≠ "Overdue" ∧
      (updateState (slidingCfg 3) (stWithLast ⟨-259200, true⟩) 0).state = "Due Today") ∧
    ((updateState (slidingCfg 3) (stWithLast ⟨-252000, true⟩) 0).state = "Due Today" ∧
      (updateState (slidingCfg 3) (stWithLast ⟨-252000, true⟩) 0).state ≠ "Due in 0 days") := by
  constructor
  · exact (claim_C7 (slidingCfg 3) (stWithLast ⟨-259200, true⟩) 0
      (tsAddDelta ⟨-259200, true⟩ (daysToSec 3)) rfl rfl).1
      (by show (-259200 : ℚ) + 3 * secPerDay = 0; norm_num [secPerDay])
  · refine (claim_C7 (slidingCfg 3) (stWithLast ⟨-252000, true⟩) 0
      (tsAddDelta ⟨-252000, true⟩ (daysToSec 3)) rfl rfl).2 ?_ ?_
    · show dateOf ((-252000 : ℚ) + 3 * secPerDay) = dateOf 0
      have h1 : ((-252000 : ℚ) + 3 * secPerDay) = (0 : ℤ) * secPerDay + 7200 := by
        norm_num [secPerDay]
      have h2 : (0 : ℚ) = ((0 : ℤ) : ℚ) * secPerDay + 0 := by norm_num
      rw [h1, dateOf_mk 0 7200 (by norm_num) (by norm_num [secPerDay]), h2,
        dateOf_mk 0 0 (by norm_num) (by norm_num [secPerDay])]
    · show (0 : ℚ) < (-252000 : ℚ) + 3 * secPerDay
      norm_num [secPerDay]

/-- C6 as stated is false: the source computes `days_remaining` as
`delta.days + (1 if delta.seconds > 0 else 0)`, and `delta.seconds` holds
only the whole-second part of the remainder, so a remainder below one second
(here half a second) does not round up, while the claim's nonzero
remainder-of-day rule says it should.  Concrete input: a sliding task with
`interval_days = 3`, `last_done` half a second after `now`. -/
theorem claim_C6_counterexample :
    (updateState (slidingCfg 3) (stWithLast ⟨1 / 2, true⟩) 0).daysRemaining = some 3 ∧
    (updateState (slidingCfg 3) (stWithLast ⟨1 / 2, true⟩) 0).state = "Due in 3 days" ∧
    specDaysRemaining ((1 / 2 : ℚ) + 3 * secPerDay - 0) = 4 ∧ (3 : ℤ) ≠ 4 := by
  have hc : computeNext (slidingCfg 3) (stWithLast ⟨1 / 2, true⟩) ⟨0, true⟩ =
      .ok (some (tsAddDelta ⟨1 / 2, true⟩ (daysToSec 3))) := rfl
  have hndq : (tsAddDelta ⟨1 / 2, true⟩ (daysToSec 3)).q = 1 / 2 + 3 * secPerDay := rfl
  have hdays : tdDays ((1 / 2 : ℚ) + 3 * secPerDay - 0) = 3 := by
    apply tdDays_eq
    · norm_num [secPerDay]
    · norm_num [secPerDay]
  have hsecs : tdSeconds ((1 / 2 : ℚ) + 3 * secPerDay - 0) = 0 := by
    apply tdSeconds_eq _ _ hdays
    · norm_num [secPerDay]
    · norm_num [secPerDay]
  have hdr : drOf ((1 / 2 : ℚ) + 3 * secPerDay - 0) = 3 := by
    rw [drOf, hdays, hsecs]
    norm_num
  have hdate3 : dateOf ((1 / 2 : ℚ) + 3 * secPerDay) = 3 := by
    have h1 : ((1 / 2 : ℚ) + 3 * secPerDay) = ((3 : ℤ) : ℚ) * secPerDay + 1 / 2 := by
      norm_num [secPerDay]
    rw [h1, dateOf_mk 3 (1 / 2) (by norm_num) (by norm_num [secPerDay])]
  have hdate0 : dateOf (0 : ℚ) = 0 := by
    have h2 : (0 : ℚ) = ((0 : ℤ) : ℚ) * secPerDay + 0 := by norm_num
    rw [h2, dateOf_mk 0 0 (by norm_num) (by norm_num [secPerDay])]
  have hge : ¬ (tsAddDelta ⟨1 / 2, true⟩ (daysToSec 3)).q < (Ts.mk 0 true).q := by
    rw [hndq]
    norm_num [secPerDay]
  have htoday : dateOf (tsAddDelta ⟨1 / 2, true⟩ (daysToSec 3)).q ≠ dateOf (Ts.mk 0 true).q := by
    rw [hndq]
    show dateOf ((1 / 2 : ℚ) + 3 * secPerDay) ≠ dateOf 0
    rw [hdate3, hdate0]
    norm_num
  have hcls := @classify_some_future (slidingCfg 3)
    { stWithLast ⟨1 / 2, true⟩ with nextDue := some (tsAddDelta ⟨1 / 2, true⟩ (daysToSec 3)) }
    ⟨0, true⟩ (tsAddDelta ⟨1 / 2, true⟩ (daysToSec 3)) rfl rfl hge htoday
  rw [updateState_classify hc hcls]
  have hdelta : (tsAddDelta ⟨1 / 2, true⟩ (daysToSec 3)).q - (Ts.mk 0 true).q =
      (1 / 2 : ℚ) + 3 * secPerDay - 0 := rfl
  refine ⟨?_, ?_, ?_, by norm_num⟩
  · show some (drOf ((tsAddDelta ⟨1 / 2, true⟩ (daysToSec 3)).q - (Ts.mk 0 true).q)) = some 3
    rw [hdelta, hdr]
  · show "Due in " ++ toString (drOf ((tsAddDelta ⟨1 / 2, true⟩ (daysToSec 3)).q -
      (Ts.mk 0 true).q)) ++ " days" = "Due in 3 days"
    rw [hdelta, hdr]
    decide
  · rw [specDaysRemaining, hdays]
    have hrem : remOfDay ((1 / 2 : ℚ) + 3 * secPerDay - 0) ≠ 0 := by
      rw [remOfDay, hdays]
      norm_num [secPerDay]
    rw [if_pos hrem]
    norm_num

/-- C6 amended: in the `Due in N days` branch, `days_remaining` is
`delta.days` plus one exactly when the remainder-of-day contains at least one
whole second (`delta.seconds > 0`); a remainder below one second does not
round up. -/
theorem claim_C6_amended (cfg : Config) (st : TaskState) (nowq : ℚ) (nd : Ts)
    (hc : computeNext cfg st ⟨nowq, true⟩ = .ok (some nd)) (ha : nd.aware = true)
    (hge : ¬ nd.q < nowq) (htoday : dateOf nd.q ≠ dateOf nowq) :
    (updateState cfg st nowq).daysRemaining =
      some (tdDays (nd.q - nowq) + (if 1 ≤ tdSeconds (nd.q - nowq) then 1 else 0)) ∧
    (updateState cfg st nowq).state =
      "Due in " ++ toString (drOf (nd.q - nowq)) ++ " days" := by
  have hcls := @classify_some_future cfg { st with nextDue := some nd } ⟨nowq, true⟩ nd
    rfl ha hge htoday
  rw [updateState_classify hc hcls]
  refine ⟨?_, rfl⟩
  show some (drOf (nd.q - nowq)) = _
  rw [drOf]
  have hiff : (0 < tdSeconds (nd.q - nowq)) ↔ (1 ≤ tdSeconds (nd.q - nowq)) := by omega
  simp only [hiff]

/-- Witness for C6-amended at a concrete input: a sliding task due three days
and half a second from `now` stays at `days_remaining = 3`. -/
theorem claim_C6_witness :
    (updateState (slidingCfg 3) (stWithLast ⟨1 / 2, true⟩) 0).daysRemaining =
      some (tdDays ((tsAddDelta ⟨1 / 2, true⟩ (daysToSec 3)).q - 0) +
        (if 1 ≤ tdSeconds ((tsAddDelta ⟨1 / 2, true⟩ (daysToSec 3)).q - 0) then 1 else 0)) ∧
    (updateState (slidingCfg 3) (stWithLast ⟨1 / 2, true⟩) 0).state =
      "Due in " ++ toString (drOf ((tsAddDelta ⟨1 / 2, true⟩ (daysToSec 3)).q - 0)) ++ " days" := by
  refine claim_C6_amended (slidingCfg 3) (stWithLast ⟨1 / 2, true⟩) 0
    (tsAddDelta ⟨1 / 2, true⟩ (daysToSec 3)) rfl rfl ?_ ?_
  · show ¬ (1 / 2 : ℚ) + 3 * secPerDay < 0
    norm_num [secPerDay]
  · show dateOf ((1 / 2 : ℚ) + 3 * secPerDay) ≠ dateOf 0
    have h1 : ((1 / 2 : ℚ) + 3 * secPerDay) = ((3 : ℤ) : ℚ) * secPerDay + 1 / 2 := by
      norm_num [secPerDay]
    have h2 : (0 : ℚ) = ((0 : ℤ) : ℚ) * secPerDay + 0 := by norm_num
    rw [h1, dateOf_mk 3 (1 / 2) (by norm_num) (by norm_num [secPerDay]), h2,
      dateOf_mk 0 0 (by norm_num) (by norm_num [secPerDay])]
    norm_num

/-- The predictive fixture of C1: history `[now - 20 days, now - 10 days]`,
`last_done = now - 10 days`. -/
def stC1 (nowq : ℚ) : TaskState :=
  ⟨"Unknown", "mdi:check", some ⟨nowq - 864000, true⟩, none, none,
    [⟨nowq - 1728000, true⟩, ⟨nowq - 864000, true⟩]⟩

/-- C1: for a Predictive task whose (timezone-aware) history has at least two
entries, the recomputed `next_due` is the last completion plus the arithmetic
mean of the consecutive gaps of the ascending-sorted history; in particular,
with history `[now - 20d, now - 10d]` the result is `now` and the status is
`Due Today`. -/
theorem claim_C1 :
    (∀ (cfg : Config) (st : TaskState) (nowq : ℚ) (ld : Ts),
      cfg.calcType = TYPE_PREDICTIVE → st.history.all (fun t => t.aware) = true →
      2 ≤ st.history.length → st.lastDone = some ld →
      (updateState cfg st nowq).nextDue =
        some (tsAddDelta ld (meanGap (List.insertionSort tsLe st.history)))) ∧
    (∀ nowq : ℚ,
      (updateState predictiveCfg (stC1 nowq) nowq).nextDue = some ⟨nowq, true⟩ ∧
      (updateState predictiveCfg (stC1 nowq) nowq).state = "Due Today") := by
  constructor
  · intro cfg st nowq ld htype hall hlen hld
    exact updateState_nextDue (computeNext_predictive_hist htype hall hlen hld)
  · intro nowq
    have hle : tsLe ⟨nowq - 1728000, true⟩ ⟨nowq - 864000, true⟩ := by
      show nowq - 1728000 ≤ nowq - 864000
      linarith
    have hsort : List.insertionSort tsLe (stC1 nowq).history =
        [⟨nowq - 1728000, true⟩, ⟨nowq - 864000, true⟩] := by
      simp [stC1, List.insertionSort, List.orderedInsert, hle]
    have hmean : meanGap (List.insertionSort tsLe (stC1 nowq).history) = 864000 := by
      rw [hsort]
      simp [meanGap, gapsOf]
      ring_nf
    have hc := @computeNext_predictive_hist predictiveCfg (stC1 nowq) ⟨nowq, true⟩
      ⟨nowq - 864000, true⟩ rfl (by simp [stC1]) (by simp [stC1]) rfl
    have hnd : tsAddDelta ⟨nowq - 864000, true⟩
        (meanGap (List.insertionSort tsLe (stC1 nowq).history)) = ⟨nowq, true⟩ := by
      rw [tsAddDelta, hmean]
      show Ts.mk (nowq - 864000 + 864000) true = Ts.mk nowq true
      norm_num
    rw [hnd] at hc
    have hcls := @classify_some_today predictiveCfg
      { stC1 nowq with nextDue := some ⟨nowq, true⟩ } ⟨nowq, true⟩ ⟨nowq, true⟩
      rfl rfl (lt_irrefl _) rfl
    rw [updateState_classify hc hcls]
    exact ⟨rfl, rfl⟩

/-- Witness for C1 at a concrete input: the general part applied to the
epoch-instantiated fixture, and the concrete instance at `now = 0`. -/
theorem claim_C1_witness :
    (updateState predictiveCfg (stC1 0) 0).nextDue =
      some (tsAddDelta ⟨(0 : ℚ) - 864000, true⟩
        (meanGap (List.insertionSort tsLe (stC1 0).history))) ∧
    (updateState predictiveCfg (stC1 0) 0).state = "Due Today" :=
  ⟨claim_C1.1 predictiveCfg (stC1 0) 0 ⟨(0 : ℚ) - 864000, true⟩ rfl rfl (by decide) rfl,
   (claim_C1.2 0).2⟩

/-- C5: `mark_as_done` on a timezone-aware history always leaves the history
sorted ascending with at most 10 entries, and when the history already has
10 entries the recorded 11th completion evicts the head of the sorted merged
list, which is a minimum (the oldest entry). -/
theorem claim_C5 (cfg : Config) (st : TaskState) (nowq : ℚ) (customDate : Option Ts)
    (hall : st.history.all (fun t => t.aware) = true) :
    ∃ st2, markAsDone cfg st nowq customDate = .ok st2 ∧
      List.Sorted tsLe st2.history ∧ st2.history.length ≤ 10 ∧
      (st.history.length = 10 →
        ∃ m rest,
          List.insertionSort tsLe (st.history ++ [markDoneTime nowq customDate]) = m :: rest ∧
          st2.history = rest ∧
          ∀ x ∈ st.history ++ [markDoneTime nowq customDate], m.q ≤ x.q) := by
  have hallapp := all_aware_append hall (markDoneTime_aware nowq customDate)
  have hmk : markAsDone cfg st nowq customDate =
      .ok (updateState cfg
        { st with
            history := (List.insertionSort tsLe
                (st.history ++ [markDoneTime nowq customDate])).drop
              ((List.insertionSort tsLe
                (st.history ++ [markDoneTime nowq customDate])).length - 10),
            lastDone := match (List.insertionSort tsLe
                (st.history ++ [markDoneTime nowq customDate])).drop
                  ((List.insertionSort tsLe
                    (st.history ++ [markDoneTime nowq customDate])).length - 10)
                |>.getLast? with
              | some x => some x
              | none => st.lastDone } nowq) := by
    simp only [markAsDone, sortedE_ok_of_aware hallapp]
  refine ⟨_, hmk, ?_, ?_, ?_⟩
  · rw [(updateState_frame cfg _ nowq).1]
    exact List.Pairwise.sublist (List.drop_sublist _ _) (List.sorted_insertionSort tsLe _)
  · rw [(updateState_frame cfg _ nowq).1]
    simp only [List.length_drop]
    omega
  · intro h10
    have hlen : (List.insertionSort tsLe
        (st.history ++ [markDoneTime nowq customDate])).length = 11 := by
      rw [List.length_insertionSort, List.length_append, h10]
      rfl
    rcases hs : List.insertionSort tsLe (st.history ++ [markDoneTime nowq customDate]) with
      _ | ⟨m, rest⟩
    · rw [hs] at hlen
      simp at hlen
    · refine ⟨m, rest, rfl, ?_, ?_⟩
      · rw [(updateState_frame cfg _ nowq).1]
        have hrest : rest.length = 10 := by
          rw [hs] at hlen
          simpa using hlen
        simp only [hs]
        rw [show (m :: rest).length - 10 = 1 by simp [hrest]]
        rfl
      · intro x hx
        have hmem : x ∈ List.insertionSort tsLe (st.history ++ [markDoneTime nowq customDate]) :=
          (List.mem_insertionSort tsLe).mpr hx
        rw [hs] at hmem
        exact sorted_head_min (hs ▸ List.sorted_insertionSort tsLe _) x hmem

/-- Witness for C5 at a concrete input: recording a completion at the epoch
on an empty aware history. -/
theorem claim_C5_witness :
    ∃ st2, markAsDone (slidingCfg 7) emptySt 0 none = .ok st2 ∧
      List.Sorted tsLe st2.history ∧ st2.history.length ≤ 10 ∧
      (emptySt.history.length = 10 →
        ∃ m rest,
          List.insertionSort tsLe (emptySt.history ++ [markDoneTime 0 none]) = m :: rest ∧
          st2.history = rest ∧
          ∀ x ∈ emptySt.history ++ [markDoneTime 0 none], m.q ≤ x.q) :=
  claim_C5 (slidingCfg 7) emptySt 0 none rfl

theorem ts_eq_of {a b : Ts} (hq : a.q = b.q) (ha : a.aware = b.aware) : a = b := by
  cases a
  cases b
  simp_all

/-- C4 as universally stated is false: `mark_as_done` sets `last_done` to the
maximum of the merged history, so recording a back-dated completion (here the
epoch, while a completion 10 days later is already recorded) leaves
`last_completion` at the later entry and `next_due` follows that entry, not
the supplied timestamp. -/
theorem claim_C4_counterexample :
    ∃ st2, markAsDone (slidingCfg 3) (stWithLast ⟨864000, true⟩) 0 (some ⟨0, true⟩) =
        .ok st2 ∧
      st2.lastDone = some ⟨864000, true⟩ ∧
      st2.nextDue = some (tsAddDelta ⟨864000, true⟩ (daysToSec 3)) ∧
      some (⟨864000, true⟩ : Ts) ≠ some (⟨0, true⟩ : Ts) ∧
      some (tsAddDelta ⟨864000, true⟩ (daysToSec 3)) ≠
        some (tsAddDelta ⟨0, true⟩ (daysToSec 3)) := by
  have hmk : markAsDone (slidingCfg 3) (stWithLast ⟨864000, true⟩) 0 (some ⟨0, true⟩) =
      .ok (updateState (slidingCfg 3)
        ⟨"Unknown", "mdi:check", some ⟨864000, true⟩, none, none,
          [⟨0, true⟩, ⟨864000, true⟩]⟩ 0) := rfl
  have hc : computeNext (slidingCfg 3)
      (⟨"Unknown", "mdi:check", some ⟨864000, true⟩, none, none,
        [⟨0, true⟩, ⟨864000, true⟩]⟩ : TaskState) ⟨0, true⟩ =
      .ok (some (tsAddDelta ⟨864000, true⟩ (daysToSec 3))) := rfl
  refine ⟨_, hmk, ?_, ?_, ?_, ?_⟩
  · exact (updateState_frame _ _ _).2
  · exact updateState_nextDue hc
  · intro h
    injection h with h2
    have := congrArg Ts.q h2
    norm_num at this
  · intro h
    injection h with h2
    have := congrArg Ts.q h2
    simp only [tsAddDelta] at this
    norm_num at this

/-- C4 amended: for a Sliding task with `interval_days ≥ 1`, an aware
history, and an aware timestamp `t` at least as late as every existing
history entry, `record_completion(t)` makes `last_completion = t` and the
recomputed `next_due = t + interval_days`. -/
theorem claim_C4_amended (cfg : Config) (st : TaskState) (nowq : ℚ) (t : Ts) (i : ℤ)
    (htype : cfg.calcType = TYPE_SLIDING) (hint : cfg.intervalDays = some i) (hi : 1 ≤ i)
    (hall : st.history.all (fun x => x.aware) = true) (ht : t.aware = true)
    (hmax : ∀ x ∈ st.history, x.q ≤ t.q) :
    ∃ st2, markAsDone cfg st nowq (some t) = .ok st2 ∧
      st2.lastDone = some t ∧
      st2.nextDue = some ⟨t.q + (i : ℚ) * secPerDay, true⟩ := by
  have hdone : markDoneTime nowq (some t) = t := attachTz_of_aware ht
  have hallapp : (st.history ++ [markDoneTime nowq (some t)]).all (fun x => x.aware) = true := by
    rw [hdone]
    exact all_aware_append hall ht
  have hmk : markAsDone cfg st nowq (some t) =
      .ok (updateState cfg
        { st with
            history := (List.insertionSort tsLe (st.history ++ [markDoneTime nowq (some t)])).drop
              ((List.insertionSort tsLe (st.history ++ [markDoneTime nowq (some t)])).length - 10),
            lastDone := match (List.insertionSort tsLe
                (st.history ++ [markDoneTime nowq (some t)])).drop
                  ((List.insertionSort tsLe
                    (st.history ++ [markDoneTime nowq (some t)])).length - 10)
                |>.getLast? with
              | some x => some x
              | none => st.lastDone } nowq) := by
    simp only [markAsDone, sortedE_ok_of_aware hallapp]
  have hsorted : List.Sorted tsLe
      (List.insertionSort tsLe (st.history ++ [markDoneTime nowq (some t)])) :=
    List.sorted_insertionSort tsLe _
  have hslen : (List.insertionSort tsLe
      (st.history ++ [markDoneTime nowq (some t)])).length = st.history.length + 1 := by
    rw [List.length_insertionSort, List.length_append]
    rfl
  have hsne : List.insertionSort tsLe (st.history ++ [markDoneTime nowq (some t)]) ≠ [] := by
    intro hnil
    rw [hnil] at hslen
    simp at hslen
  obtain ⟨m, hm⟩ := Option.isSome_iff_exists.mp (List.getLast?_isSome.mpr hsne)
  have hmmem : m ∈ st.history ++ [markDoneTime nowq (some t)] :=
    (List.mem_insertionSort tsLe).mp (List.mem_of_mem_getLast? hm)
  have hmq_le : m.q ≤ t.q := by
    rcases List.mem_append.mp hmmem with hl | hr
    · exact hmax m hl
    · rw [hdone] at hr
      rw [List.mem_singleton.mp hr]
  have htq_le : t.q ≤ m.q := by
    apply sorted_getLast_max hsorted hm
    rw [List.mem_insertionSort, hdone]
    exact List.mem_append_right _ (List.mem_singleton_self _)
  have hmt : m = t := by
    apply ts_eq_of (le_antisymm hmq_le htq_le)
    rw [ht]
    exact aware_of_mem hallapp hmmem
  have hdroplast : (((List.insertionSort tsLe (st.history ++ [markDoneTime nowq (some t)])).drop
      ((List.insertionSort tsLe
        (st.history ++ [markDoneTime nowq (some t)])).length - 10)).getLast?) = some t := by
    rw [getLast?_drop_of_lt (by omega), hm, hmt]
  rw [hdroplast] at hmk
  dsimp only at hmk
  refine ⟨_, hmk, ?_, ?_⟩
  · rw [(updateState_frame cfg _ nowq).2]
  · have htruthy : intervalTruthy (some i) = true := by
      simp only [intervalTruthy]
      simpa using (by omega : i ≠ 0)
    rw [updateState_nextDue (computeNext_sliding_last htype rfl
      (by rw [hint]; exact htruthy))]
    rw [hint]
    simp only [tsAddDelta, daysToSec, Option.getD_some]
    rw [ht]

/-- Witness for C4-amended at a concrete input: recording a completion at
10 days past the epoch on a task completed at the epoch. -/
theorem claim_C4_witness :
    ∃ st2, markAsDone (slidingCfg 3) (stWithLast ⟨0, true⟩) 0 (some ⟨864000, true⟩) =
        .ok st2 ∧
      st2.lastDone = some ⟨864000, true⟩ ∧
      st2.nextDue = some ⟨(864000 : ℚ) + (3 : ℚ) * secPerDay, true⟩ := by
  have h := claim_C4_amended (slidingCfg 3) (stWithLast ⟨0, true⟩) 0 ⟨864000, true⟩ 3
    rfl rfl (by omega) rfl rfl ?_
  · exact h
  · intro x hx
    have hx2 : x = (⟨0, true⟩ : Ts) := List.mem_singleton.mp hx
    rw [hx2]
    show (0 : ℚ) ≤ 864000
    norm_num

/-- The Fixed fixture of C2: `days_of_week = {wed}`, `time = 09:00`. -/
def wedCfg : Config := ⟨TYPE_FIXED, none, some ⟨some ⟨9, 0, 0⟩, ["wed"]⟩, "mdi:check"⟩

theorem wedCfg_nextDue (st : TaskState) (nowq : ℚ)
    (hdate : dateOf (attachTz (st.lastDone.getD ⟨nowq, true⟩)).q = 0 ∨
      dateOf (attachTz (st.lastDone.getD ⟨nowq, true⟩)).q = 1) :
    (updateState wedCfg st nowq).nextDue = some ⟨205200, true⟩ := by
  obtain ⟨d, hd1, hd2, hdmin, hceq, _⟩ := @computeNext_fixed_weekly
    wedCfg st ⟨nowq, true⟩ ⟨some ⟨9, 0, 0⟩, ["wed"]⟩ rfl rfl (by decide) (by decide)
  have hwds : List.filterMap WEEKDAY_MAP ["wed"] = [2] := rfl
  rw [hwds] at hd2
  have hd2m : d % 7 = 2 := List.mem_singleton.mp hd2
  have hd1' : 0 < d := by rcases hdate with h0 | h0 <;> omega
  have hle : d ≤ 2 := by
    apply hdmin 2 _ (by rw [hwds]; exact List.mem_singleton_self _)
    rcases hdate with h0 | h0 <;> omega
  have hd : d = 2 := by omega
  subst hd
  rw [updateState_nextDue hceq]
  have hval : ((2 : ℤ) : ℚ) * secPerDay +
      targetSec ((⟨some ⟨9, 0, 0⟩, ["wed"]⟩ : Schedule).timeOfDay.getD ⟨0, 0, 0⟩) = 205200 := by
    show ((2 : ℤ) : ℚ) * secPerDay + targetSec ⟨9, 0, 0⟩ = 205200
    norm_num [secPerDay, targetSec]
  rw [hval]

/-- C2: for a Fixed task with a nonempty valid weekday set, the recomputed
`next_due` falls on the earliest date strictly after the anchor's date whose
weekday is in the set, at the requested clock time (seconds zeroed), and is
strictly after the anchor; the re-search guard of the source never has to
move it further.  In particular, with `days_of_week = {wed}` and
`time = 09:00` evaluated at Monday noon, `next_due` is Wednesday 09:00
(clock value `205200`), and after `record_completion` on the Tuesday before
(clock value `122400`), `next_due` is still that same Wednesday 09:00. -/
theorem claim_C2 :
    (∀ (cfg : Config) (st : TaskState) (nowq : ℚ) (sch : Schedule),
      cfg.calcType = TYPE_FIXED → cfg.schedule = some sch →
      sch.days ≠ [] → sch.days.filterMap WEEKDAY_MAP ≠ [] →
      ∃ d : ℤ,
        dateOf (attachTz (st.lastDone.getD ⟨nowq, true⟩)).q < d ∧
        d % 7 ∈ sch.days.filterMap WEEKDAY_MAP ∧
        (∀ e : ℤ, dateOf (attachTz (st.lastDone.getD ⟨nowq, true⟩)).q < e →
          e % 7 ∈ sch.days.filterMap WEEKDAY_MAP → d ≤ e) ∧
        (updateState cfg st nowq).nextDue =
          some ⟨(d : ℚ) * secPerDay + targetSec (sch.timeOfDay.getD ⟨0, 0, 0⟩), true⟩ ∧
        (attachTz (st.lastDone.getD ⟨nowq, true⟩)).q <
          (d : ℚ) * secPerDay + targetSec (sch.timeOfDay.getD ⟨0, 0, 0⟩)) ∧
    ((updateState wedCfg emptySt 43200).nextDue = some ⟨205200, true⟩ ∧
      ∃ st2, markAsDone wedCfg emptySt 122400 none = .ok st2 ∧
        st2.nextDue = some ⟨205200, true⟩) := by
  refine ⟨?_, ?_, ?_⟩
  · intro cfg st nowq sch htype hsch hdays hwds
    obtain ⟨d, hd1, hd2, hdmin, hceq, hafter⟩ :=
      @computeNext_fixed_weekly cfg st ⟨nowq, true⟩ sch htype hsch hdays hwds
    exact ⟨d, hd1, hd2, hdmin, updateState_nextDue hceq, hafter⟩
  · apply wedCfg_nextDue
    left
    show dateOf (43200 : ℚ) = 0
    have h1 : (43200 : ℚ) = ((0 : ℤ) : ℚ) * secPerDay + 43200 := by norm_num
    rw [h1, dateOf_mk 0 43200 (by norm_num) (by norm_num [secPerDay])]
  · have hmk : markAsDone wedCfg emptySt 122400 none =
        .ok (updateState wedCfg
          ⟨"Unknown", "mdi:check", some ⟨122400, true⟩, none, none, [⟨122400, true⟩]⟩
          122400) := rfl
    refine ⟨_, hmk, ?_⟩
    apply wedCfg_nextDue
    right
    show dateOf (122400 : ℚ) = 1
    have h1 : (122400 : ℚ) = ((1 : ℤ) : ℚ) * secPerDay + 36000 := by norm_num [secPerDay]
    rw [h1, dateOf_mk 1 36000 (by norm_num) (by norm_num [secPerDay])]

/-- Witness for C2 at a concrete input: the general part applied to the
Wednesday/09:00 configuration with a Monday-noon anchor. -/
theorem claim_C2_witness :
    ∃ d : ℤ,
      dateOf (attachTz (emptySt.lastDone.getD ⟨43200, true⟩)).q < d ∧
      d % 7 ∈ (["wed"] : List String).filterMap WEEKDAY_MAP ∧
      (∀ e : ℤ, dateOf (attachTz (emptySt.lastDone.getD ⟨43200, true⟩)).q < e →
        e % 7 ∈ (["wed"] : List String).filterMap WEEKDAY_MAP → d ≤ e) ∧
      (updateState wedCfg emptySt 43200).nextDue =
        some ⟨(d : ℚ) * secPerDay +
          targetSec ((some (⟨9, 0, 0⟩ : TimeOfDay)).getD ⟨0, 0, 0⟩), true⟩ ∧
      (attachTz (emptySt.lastDone.getD ⟨43200, true⟩)).q <
        (d : ℚ) * secPerDay + targetSec ((some (⟨9, 0, 0⟩ : TimeOfDay)).getD ⟨0, 0, 0⟩) :=
  claim_C2.1 wedCfg emptySt 43200 ⟨some ⟨9, 0, 0⟩, ["wed"]⟩ rfl rfl (by decide) (by decide)
